import Mathlib

/-!
Verification development for the shell_gpt completion pipeline
(`sgpt/handlers/handler.py`, `sgpt/config.py`).

The Python source is shallowly embedded:

* streamed vendor chunks become `Chunk` values; a whole response is a
  `List Chunk`;
* the chat transcript is a `List Message`;
* `Handler.get_completion` (the generator, together with the `@cache`
  wrapper around it) becomes the recursive function `getCompletionAux`,
  which threads the module-level mutable `additional_kwargs` dictionary
  and the cache state explicitly and records every vendor invocation;
* the vendor backend is an oracle: a list of chunk streams, one per
  vendor invocation (`completion(...)` consumes the head);
* external boundaries (`json.loads`, the function registry
  `get_function`) are parameters of the development;
* the consumer interrupting a stream with Ctrl-C is modelled by a
  fragment budget on a single-response run (`runStreamI`).

A load-bearing fact of this snapshot: the chunk loop reads the
module-level name `use_litellm` at line 163, but its defining
assignment (line 14) is commented out and nothing else assigns or
imports it, so the first iteration of every non-empty response raises
`NameError`, which `except KeyboardInterrupt` does not catch.  The
embedding records this (`use_litellm_defined`) and keeps the remainder
of the loop body as guarded dead code, so both the program's actual
behaviour and the unreachable accumulation/dispatch code can be
reasoned about.

The `Cache` class (`sgpt/cache.py`) is not part of the sources under
review; its commit/replay discipline is modelled from the spec (see
`CacheState`).
-/

namespace SGpt

/-- Temperature / top_p values.  The pipeline never computes with them;
they only participate in cache fingerprints, so we model the floats as
rationals. -/
abbrev Temp := ℚ

/-- Payload of a function schema offered to the vendor.  The engine
treats schemas as opaque data, so a plain string suffices. -/
abbrev FunctionSchema := String

/-- Result of `json.loads` on a tool-call argument blob: a keyword
dictionary, modelled as an association list. -/
abbrev ArgsDict := List (String × String)

/-- A transcript message, `{role, content, function_call?, name?}` as
built by `Handler.handle_function_call` and consumed by the engine. -/
structure Message where
  role : String
  content : String
  function_call : Option (String × String) := none
  name : Option String := none
  deriving DecidableEq, Repr

/-- `tool_call.function` inside a streamed delta: possibly-empty name
and arguments fragments (Python truthiness: `""` counts as absent). -/
structure ToolCallFunction where
  name : String
  arguments : String
  deriving DecidableEq, Repr

/-- One element of `delta.tool_calls`. -/
structure ToolCall where
  function : ToolCallFunction
  deriving DecidableEq, Repr

/-- `chunk.choices[0].delta`: optional text content and optional
tool-call fragments.  Both backends expose the same `tool_calls` field
(the litellm branch reads it with `delta.get`, the OpenAI branch as an
attribute). -/
structure Delta where
  content : Option String := none
  tool_calls : Option (List ToolCall) := none
  deriving DecidableEq, Repr

/-- One streamed chunk, flattened to its single choice. -/
structure Chunk where
  delta : Delta
  finish_reason : Option String := none
  deriving DecidableEq, Repr

/-- The module-level `additional_kwargs` dictionary, restricted to the
keys `get_completion` touches.  Under the OpenAI and Anthropic branches
the dictionary is reset to `{}` at import time, so the initial state has
every field `none`; `get_completion` only ever adds the three tool keys
(lines 143-146) and never removes them. -/
structure AdditionalKwargs where
  tool_choice : Option String := none
  tools : Option (List FunctionSchema) := none
  parallel_tool_calls : Option Bool := none
  deriving DecidableEq, Repr

/-- Python truthiness of the `functions` argument: `None` and `[]` are
falsy (`if functions:` at line 143). -/
def functionsTruthy : Option (List FunctionSchema) → Bool
  | none => false
  | some l => !l.isEmpty

/-- One accumulation step of the chunk loop (lines 165-170): each
tool-call fragment overwrites `name` when its name field is non-empty
and appends its arguments field when non-empty. -/
def accumulateToolCalls (name arguments : String) (tcs : List ToolCall) :
    String × String :=
  tcs.foldl
    (fun (acc : String × String) tc =>
      ((if tc.function.name ≠ "" then tc.function.name else acc.1),
       (if tc.function.arguments ≠ "" then acc.2 ++ tc.function.arguments
        else acc.2)))
    (name, arguments)

/-- The per-chunk update of the `(name, arguments)` state: applied only
when `delta.tool_calls` is present (absent and `[]` both leave the state
unchanged, matching `if tool_calls:`). -/
def chunkStep (name arguments : String) (c : Chunk) : String × String :=
  match c.delta.tool_calls with
  | some tcs => accumulateToolCalls name arguments tcs
  | none => (name, arguments)

/-- Errors the engine can surface.  `nameError` is the `NameError`
raised at line 163: the loop reads the module-level name `use_litellm`,
whose defining assignment (line 14) is commented out and which nothing
else assigns or imports — it fires on the first iteration of every
non-empty response, and `except KeyboardInterrupt` does not catch it.
`invalidArguments` is the spec's `InvalidArgumentsError` (a `json.loads`
failure at line 118); `unknownFunction` is the spec's
`UnknownFunctionError` (the function registry `sgpt/function.py` is
outside the reviewed sources; the spec says resolution of an
unregistered name fails); `vendorResponseMissing` is a modelling
artifact: the finite vendor oracle had no stream left for an
invocation. -/
inductive EngineError where
  | nameError
  | invalidArguments
  | unknownFunction
  | vendorResponseMissing
  deriving DecidableEq, Repr

/-- Line 163 reads the module-level name `use_litellm`, but its defining
assignment (line 14, `use_litellm = cfg.get("USE_LITELLM") == "true"`)
is commented out and nothing else assigns or imports that name, so
evaluating line 163 raises `NameError`.  This constant records that
fact; the loop bodies guarded by it below are the source as written,
reachable only if line 14 were restored. -/
def use_litellm_defined : Bool := false

/-- Result of the `for chunk in response` loop on one response: the
stream was exhausted (`completed`), a `"tool_calls"` finish reason was
hit (`functionCall`), or an exception escaped the loop body (`failed`) —
each together with the text fragments yielded before that point. -/
inductive ChunkLoopResult where
  | completed (fragments : List String)
  | functionCall (fragments : List String) (name arguments : String)
  | failed (fragments : List String) (e : EngineError)
  deriving DecidableEq, Repr

/-- The body of the `for chunk in response` loop of
`Handler.get_completion` (lines 158-183).  Each iteration first
evaluates `use_litellm` (line 163); that name is undefined (see
`use_litellm_defined`), so the first iteration of every non-empty
response raises `NameError` — before any tool-call accumulation, before
the finish-reason check and before the first `yield`.  The guarded
branch is the rest of the body as written: accumulate tool-call
fragments, stop and report the accumulated `(name, arguments)` on a
`"tool_calls"` finish reason (that chunk's text is not yielded),
otherwise yield `delta.content or ""` and continue.  As the guard is
false, that branch is dead code. -/
def processChunks : List Chunk → String → String → ChunkLoopResult
  | [], _, _ => .completed []
  | c :: rest, name, arguments =>
    if use_litellm_defined then
      let acc := chunkStep name arguments c
      if c.finish_reason = some "tool_calls" then
        .functionCall [] acc.1 acc.2
      else
        match processChunks rest acc.1 acc.2 with
        | .completed fs => .completed ((c.delta.content.getD "") :: fs)
        | .functionCall fs n a =>
          .functionCall ((c.delta.content.getD "") :: fs) n a
        | .failed fs e => .failed ((c.delta.content.getD "") :: fs) e
    else
      .failed [] .nameError

/-- `Handler.handle_function_call` (lines 101-125): appends the
assistant message carrying the accumulated `function_call` payload,
yields `"\n"` (the guard `messages[-1]["role"] == "assistant"` always
holds immediately after the append), parses the argument blob, resolves
and invokes the function, optionally yields the fenced result, and
appends the `function`-role message.  Returns the updated transcript,
the yielded fragments, and the error, if any, that escapes the
generator.  On an error the assistant message has already been appended
(the list is mutated in place in the source) but no function message is
added. -/
def handle_function_call (jsonLoads : String → Option ArgsDict)
    (getFunction : String → Option (ArgsDict → String)) (showOutput : Bool)
    (messages : List Message) (name arguments : String) :
    List Message × List String × Option EngineError :=
  let messages := messages ++
    [{ role := "assistant", content := "", function_call := some (name, arguments) }]
  match jsonLoads arguments with
  | none => (messages, ["\n"], some .invalidArguments)
  | some dict_args =>
    match getFunction name with
    | none => (messages, ["\n"], some .unknownFunction)
    | some f =>
      let result := f dict_args
      let frags := if showOutput
        then ["\n", "```text\n" ++ result ++ "\n```\n"] else ["\n"]
      (messages ++ [{ role := "function", content := result, name := some name }],
       frags, none)

/-- Cache fingerprint: all arguments of `get_completion` except the
`caching` flag, per spec: `(model, temperature, top_p, full message
sequence, function schema set)`. -/
structure Fingerprint where
  model : String
  temperature : Temp
  top_p : Temp
  messages : List Message
  functions : Option (List FunctionSchema)
  deriving DecidableEq, Repr

/-- Modelled from the spec: the `Cache` class of `sgpt/cache.py` is not
among the reviewed sources.  Per spec §4.2 / §3 it is a bounded keyed
store in insertion order (oldest first); a committed entry maps a
fingerprint to the full fragment list of one completed stream. -/
structure CacheState where
  entries : List (Fingerprint × List String)
  deriving DecidableEq, Repr

/-- Modelled from the spec: cache lookup by fingerprint. -/
def CacheState.lookup (c : CacheState) (fp : Fingerprint) :
    Option (List String) :=
  (c.entries.find? (fun e => e.1 = fp)).map (·.2)

/-- Modelled from the spec: commit a completed stream, then evict
oldest-inserted entries until the store is within `capacity`. -/
def CacheState.insert (capacity : ℕ) (c : CacheState) (fp : Fingerprint)
    (fragments : List String) : CacheState :=
  let es := c.entries ++ [(fp, fragments)]
  ⟨es.drop (es.length - capacity)⟩

/-- A recorded vendor invocation: exactly the keyword arguments passed
to `completion(...)` at lines 148-155 (minus `stream=True`, which is
constant). -/
structure VendorCall where
  model : String
  temperature : Temp
  top_p : Temp
  messages : List Message
  kwargs : AdditionalKwargs
  deriving DecidableEq, Repr

/-- Observable outcome of one (possibly recursive) `get_completion`
invocation:

* `fragments` — everything the generator yields, in order;
* `messages` — final transcript (the Python list is mutated in place);
* `kwargs` — final state of the module-level `additional_kwargs`;
* `cache` — final cache state;
* `vendorCalls` — every `completion(...)` invocation, in order, with the
  keyword arguments it received;
* `engineFlags` — the `caching` flag of every `get_completion`
  invocation (the call itself followed by its recursive descendants);
* `error` — the exception escaping the generator, if any. -/
structure EngineResult where
  fragments : List String
  messages : List Message
  kwargs : AdditionalKwargs
  cache : CacheState
  vendorCalls : List VendorCall
  engineFlags : List Bool
  error : Option EngineError
  deriving DecidableEq, Repr

/-- Modelled from the spec (cache side): the `@cache` wrapper commits
the teed fragments only when the wrapped generator was exhausted
completely and without error; nothing is cached otherwise. -/
def commitIfCompleted (capacity : ℕ) (caching : Bool) (fp : Fingerprint)
    (r : EngineResult) : EngineResult :=
  if caching ∧ r.error = none then
    { r with cache := r.cache.insert capacity fp r.fragments }
  else r

/-- Lines 136-141: the shell-command, code and describe-shell roles
force `functions = None`, whatever the caller passed. -/
def effectiveFunctions (rs rc rd : Bool)
    (functions : Option (List FunctionSchema)) :
    Option (List FunctionSchema) :=
  if rs || rc || rd then none else functions

/-- Lines 143-146: a truthy (post-override) `functions` adds
`tool_choice="auto"`, `tools=functions` and `parallel_tool_calls=False`
to the shared `additional_kwargs`; otherwise the dictionary is left as
it was (existing keys are never removed). -/
def kwargsStep (kwargs : AdditionalKwargs)
    (functions : Option (List FunctionSchema)) : AdditionalKwargs :=
  if functionsTruthy functions then
    { kwargs with tool_choice := some "auto", tools := functions,
                  parallel_tool_calls := some false }
  else kwargs

/-- `Handler.get_completion` under its `@cache` decorator (lines
127-185), with the `Cache` replay/commit discipline modelled from spec
§4.2.  Parameters:

* `jsonLoads`, `getFunction`, `showOutput` — the external boundaries
  used by `handle_function_call`;
* `isShellRole`, `isCodeRole`, `isDescribeShellRole` — the outcomes of
  the three role-name comparisons at lines 137-139 (the `DefaultRoles`
  values live in `sgpt/role.py`, outside the reviewed sources);
* `capacity` — the configured cache length;
* `streams` — the vendor oracle: the chunk streams successive
  `completion(...)` invocations return;
* `cache`, `kwargs0` — cache state and the module-level
  `additional_kwargs` at entry;
* the remaining arguments are `get_completion`'s own.

The body mirrors the source: with `caching` set and a fingerprint hit,
replay the stored fragments (no vendor call, no state change).
Otherwise: the shell/code/describe-shell roles force `functions = None`;
a truthy `functions` adds `tool_choice="auto"`, `tools`, and
`parallel_tool_calls=False` to the shared kwargs; `completion(...)` is
invoked; then the chunk loop runs.  As written it raises `NameError` on
the first chunk of every non-empty response (see `processChunks`), which
escapes the generator uncaught (`except KeyboardInterrupt` only), so
the `completed`-commit branch is reachable only for an empty response
and the `functionCall` branch (one `handle_function_call`, then exactly
one recursive call with `caching=False`, mirroring lines 171-181) only
through the dead guarded loop body; the wrapper commits the full
fragment list on error-free completion only. -/
def getCompletionAux (jsonLoads : String → Option ArgsDict)
    (getFunction : String → Option (ArgsDict → String)) (showOutput : Bool)
    (isShellRole isCodeRole isDescribeShellRole : Bool) (capacity : ℕ) :
    List (List Chunk) → CacheState → AdditionalKwargs → Bool →
    String → Temp → Temp → List Message → Option (List FunctionSchema) →
    EngineResult
  | streams, cache, kwargs0, caching, model, temperature, top_p, messages,
    functions =>
    let fp : Fingerprint := ⟨model, temperature, top_p, messages, functions⟩
    match (if caching then cache.lookup fp else none) with
    | some cached =>
      { fragments := cached, messages := messages, kwargs := kwargs0,
        cache := cache, vendorCalls := [], engineFlags := [caching],
        error := none }
    | none =>
      let functions :=
        effectiveFunctions isShellRole isCodeRole isDescribeShellRole functions
      let kwargs := kwargsStep kwargs0 functions
      let vc : VendorCall := ⟨model, temperature, top_p, messages, kwargs⟩
      match streams with
      | [] =>
        { fragments := [], messages := messages, kwargs := kwargs,
          cache := cache, vendorCalls := [vc], engineFlags := [caching],
          error := some .vendorResponseMissing }
      | s :: rest =>
        match processChunks s "" "" with
        | .completed frags =>
          commitIfCompleted capacity caching fp
            { fragments := frags, messages := messages, kwargs := kwargs,
              cache := cache, vendorCalls := [vc], engineFlags := [caching],
              error := none }
        | .failed frags e =>
          { fragments := frags, messages := messages, kwargs := kwargs,
            cache := cache, vendorCalls := [vc], engineFlags := [caching],
            error := some e }
        | .functionCall frags name arguments =>
          match handle_function_call jsonLoads getFunction showOutput
              messages name arguments with
          | (messages', hfrags, some e) =>
            { fragments := frags ++ hfrags, messages := messages',
              kwargs := kwargs, cache := cache, vendorCalls := [vc],
              engineFlags := [caching], error := some e }
          | (messages', hfrags, none) =>
            let r := getCompletionAux jsonLoads getFunction showOutput
              isShellRole isCodeRole isDescribeShellRole capacity
              rest cache kwargs false model temperature top_p messages'
              functions
            commitIfCompleted capacity caching fp
              { fragments := frags ++ hfrags ++ r.fragments,
                messages := r.messages, kwargs := r.kwargs,
                cache := r.cache, vendorCalls := vc :: r.vendorCalls,
                engineFlags := caching :: r.engineFlags, error := r.error }

/-! ## Anthropic adapter (`_adapt_parameters_to_anthropic`, lines 32-63)

The engine always invokes `completion` with keyword arguments only
(`model=..., temperature=..., top_p=..., messages=..., stream=True,
**additional_kwargs`, and `additional_kwargs` is `{}` under the
Anthropic branch), so the positional-argument scanning and the early
`'system' in kwargs` returns are dead on this call shape; the embedding
models the keyword path. -/

/-- A typed content block, `{"type": "text", "text": ...}`. -/
structure ContentBlock where
  type : String
  text : String
  deriving DecidableEq, Repr

/-- A message after the Anthropic reshaping: the original role with the
content wrapped in a singleton list of typed blocks (line 55-58). -/
structure AMessage where
  role : String
  content : List ContentBlock
  deriving DecidableEq, Repr

/-- The two ways `_adapt_parameters_to_anthropic` can fail on the
keyword call shape: `noSystemMessage` is the `TypeError` from
subscripting `system_message` while it is still `None` (line 61), and
`wrongModel` is the `AssertionError` at line 62. -/
inductive AdaptError where
  | noSystemMessage
  | wrongModel
  deriving DecidableEq, Repr

/-- Wrap a message's content as a typed text block, keeping the role. -/
def wrapMessage (m : Message) : AMessage :=
  ⟨m.role, [⟨"text", m.content⟩]⟩

/-- The loop at lines 51-59: walk the messages in order, collecting
non-system messages with wrapped content, while the (last seen) system
message overwrites the `system_message` slot. -/
def splitSystem (messages : List Message) :
    List AMessage × Option Message :=
  messages.foldl
    (fun (acc : List AMessage × Option Message) m =>
      if m.role = "system" then (acc.1, some m)
      else (acc.1 ++ [wrapMessage m], acc.2))
    ([], none)

/-- `_adapt_parameters_to_anthropic` on the keyword call shape: split
out the system message, fail if there was none (line 61 subscripts
`None`), assert the model name (line 62), and otherwise return the
reshaped message list together with the system content destined for the
top-level `system` field. -/
def adaptParametersToAnthropic (model : String) (messages : List Message) :
    Except AdaptError (List AMessage × String) :=
  let r := splitSystem messages
  match r.2 with
  | none => .error .noSystemMessage
  | some sys =>
    if model = "claude-3-5-sonnet-20241022" then
      .ok (r.1, sys.content)
    else
      .error .wrongModel

/-! ## Interruptible single-response run

Ctrl-C semantics for one streamed response (lines 157-185): the
consumer accepts `budget` fragments; at the next yield the
`KeyboardInterrupt` is raised inside the generator, the `except` clause
calls `response.close()`, and the generator returns without re-raising.
`budget = none` means the consumer never interrupts. -/

/-- Outcome of one interruptible response run.  `interrupted` carries
whether `response.close()` ran (the `except KeyboardInterrupt` clause)
and implies a clean return: no exception escapes.  `functionCall`
reports a `"tool_calls"` finish reached before the interrupt.  `failed`
is an exception other than `KeyboardInterrupt` escaping the loop body —
the `except` clause does not fire, so `response.close()` is NOT called
on this path. -/
inductive StreamOutcome where
  | finished (fragments : List String)
  | interrupted (fragments : List String) (closed : Bool)
  | functionCall (fragments : List String) (name arguments : String)
  | failed (fragments : List String) (e : EngineError)
  deriving DecidableEq, Repr

/-- The `for chunk in response` loop with a consumer fragment budget.
As in `processChunks`, each iteration evaluates the undefined name
`use_litellm` first (line 163), so every non-empty response fails with
`NameError` before the first yield — before any budgeted interrupt
could be delivered at a yield point.  The guarded branch is the loop as
written, dead code under the false guard. -/
def runStreamI : List Chunk → String → String → Option ℕ → StreamOutcome
  | [], _, _, _ => .finished []
  | c :: rest, name, arguments, budget =>
    if use_litellm_defined then
      let acc := chunkStep name arguments c
      if c.finish_reason = some "tool_calls" then
        .functionCall [] acc.1 acc.2
      else
        match budget with
        | some 0 => .interrupted [] true
        | _ =>
          let frag := c.delta.content.getD ""
          match runStreamI rest acc.1 acc.2 (budget.map (· - 1)) with
          | .finished fs => .finished (frag :: fs)
          | .interrupted fs closed => .interrupted (frag :: fs) closed
          | .functionCall fs n a => .functionCall (frag :: fs) n a
          | .failed fs e => .failed (frag :: fs) e
    else
      .failed [] .nameError

/-- Modelled from the spec (cache side): the `@cache` wrapper around a
single interruptible response run.  On a replay hit nothing is run; a
`finished` run commits its fragments; interrupted, function-call and
failed runs commit nothing. -/
def cachedStreamRun (capacity : ℕ) (cache : CacheState) (fp : Fingerprint)
    (caching : Bool) (chunks : List Chunk) (budget : Option ℕ) :
    StreamOutcome × CacheState :=
  match (if caching then cache.lookup fp else none) with
  | some cached => (.finished cached, cache)
  | none =>
    match runStreamI chunks "" "" budget with
    | .finished fs =>
      (.finished fs,
       if caching then cache.insert capacity fp fs else cache)
    | o => (o, cache)

/-! ## Spec-side characterizations of the accumulation loop

These definitions restate, independently of the loop, what the
`(name, arguments)` state amounts to: they are used to compare the
loop's behaviour with the spec's description of fragment
accumulation. -/

/-- The tool-call fragments carried by one chunk (`[]` when the delta
has none). -/
def chunkToolCalls (c : Chunk) : List ToolCall :=
  c.delta.tool_calls.getD []

/-- All tool-call fragments of a chunk list, in arrival order. -/
def allToolCalls (l : List Chunk) : List ToolCall :=
  l.flatMap chunkToolCalls

/-- The name fields of all tool-call fragments, in arrival order. -/
def nameFragments (l : List Chunk) : List String :=
  (allToolCalls l).map (·.function.name)

/-- The argument fields of all tool-call fragments, in arrival order. -/
def argumentFragments (l : List Chunk) : List String :=
  (allToolCalls l).map (·.function.arguments)

/-- Concatenation of a fragment list in arrival order. -/
def concatFragments (l : List String) : String :=
  l.foldl (· ++ ·) ""

/-- The last non-empty string of a fragment list, with a default. -/
def lastNonEmpty (l : List String) (dflt : String) : String :=
  ((l.filter (· ≠ "")).getLast?).getD dflt

/-! # Supporting lemmas -/

theorem foldl_append_shift (xs : List String) :
    ∀ a : String, xs.foldl (· ++ ·) a = a ++ xs.foldl (· ++ ·) "" := by
  induction xs with
  | nil => intro a; simp [String.append_empty]
  | cons x xs ih =>
    intro a
    simp only [List.foldl_cons]
    rw [ih (a ++ x), ih ("" ++ x), String.empty_append, String.append_assoc]

theorem concatFragments_nil : concatFragments [] = "" := rfl

theorem concatFragments_cons (x : String) (xs : List String) :
    concatFragments (x :: xs) = x ++ concatFragments xs := by
  unfold concatFragments
  simp only [List.foldl_cons]
  rw [foldl_append_shift xs ("" ++ x), String.empty_append]

theorem concatFragments_append (l₁ l₂ : List String) :
    concatFragments (l₁ ++ l₂) = concatFragments l₁ ++ concatFragments l₂ := by
  induction l₁ with
  | nil => simp [concatFragments_nil, String.empty_append]
  | cons x xs ih =>
    simp only [List.cons_append, concatFragments_cons, ih, String.append_assoc]

theorem or_some_getD (o : Option String) (x d : String) :
    (o.or (some x)).getD d = o.getD x := by
  cases o <;> rfl

theorem lastNonEmpty_nil (d : String) : lastNonEmpty [] d = d := rfl

theorem lastNonEmpty_cons (x : String) (xs : List String) (d : String) :
    lastNonEmpty (x :: xs) d = lastNonEmpty xs (if x ≠ "" then x else d) := by
  unfold lastNonEmpty
  by_cases hx : x = ""
  · simp [List.filter_cons, hx]
  · rw [List.filter_cons, if_pos (by simpa using hx)]
    rw [show x :: xs.filter (· ≠ "") = [x] ++ xs.filter (· ≠ "") from rfl,
        List.getLast?_append]
    rw [show ([x] : List String).getLast? = some x from rfl]
    rw [or_some_getD, if_pos hx]

theorem lastNonEmpty_append (l₁ l₂ : List String) :
    ∀ d, lastNonEmpty (l₁ ++ l₂) d = lastNonEmpty l₂ (lastNonEmpty l₁ d) := by
  induction l₁ with
  | nil => intro d; rfl
  | cons x xs ih =>
    intro d
    simp only [List.cons_append, lastNonEmpty_cons, ih]

theorem accumulateToolCalls_eq (tcs : List ToolCall) :
    ∀ name arguments,
      accumulateToolCalls name arguments tcs
        = (lastNonEmpty (tcs.map (·.function.name)) name,
           arguments ++ concatFragments (tcs.map (·.function.arguments))) := by
  induction tcs with
  | nil =>
    intro n a
    simp [accumulateToolCalls, lastNonEmpty_nil, concatFragments_nil,
      String.append_empty]
  | cons tc tcs ih =>
    intro n a
    have step : accumulateToolCalls n a (tc :: tcs)
        = accumulateToolCalls
            (if tc.function.name ≠ "" then tc.function.name else n)
            (if tc.function.arguments ≠ "" then a ++ tc.function.arguments else a)
            tcs := rfl
    rw [step, ih]
    simp only [List.map_cons, concatFragments_cons, lastNonEmpty_cons]
    by_cases ha : tc.function.arguments = ""
    · simp [ha, String.empty_append]
    · simp [ha, String.append_assoc]

theorem chunkStep_eq (c : Chunk) (n a : String) :
    chunkStep n a c
      = (lastNonEmpty ((chunkToolCalls c).map (·.function.name)) n,
         a ++ concatFragments ((chunkToolCalls c).map (·.function.arguments))) := by
  unfold chunkStep chunkToolCalls
  cases c.delta.tool_calls with
  | none =>
    simp [lastNonEmpty_nil, concatFragments_nil, String.append_empty]
  | some tcs => simp [accumulateToolCalls_eq]

theorem allToolCalls_cons (c : Chunk) (l : List Chunk) :
    allToolCalls (c :: l) = chunkToolCalls c ++ allToolCalls l := by
  simp [allToolCalls]

theorem find?_append_of_none {α : Type} (p : α → Bool) (l₁ l₂ : List α)
    (h : l₁.find? p = none) : (l₁ ++ l₂).find? p = l₂.find? p := by
  rw [List.find?_append, h, Option.none_or]

theorem CacheState.lookup_insert_self (capacity : ℕ) (c : CacheState)
    (fp : Fingerprint) (v : List String) (hmiss : c.lookup fp = none)
    (hcap : 1 ≤ capacity) :
    (c.insert capacity fp v).lookup fp = some v := by
  have hfind : c.entries.find? (fun e => e.1 = fp) = none := by
    unfold CacheState.lookup at hmiss
    cases h : c.entries.find? (fun e => e.1 = fp) with
    | none => rfl
    | some e => rw [h] at hmiss; simp at hmiss
  simp only [CacheState.insert, CacheState.lookup]
  have hk : (c.entries ++ [(fp, v)]).length - capacity ≤ c.entries.length := by
    simp only [List.length_append, List.length_cons, List.length_nil]
    omega
  rw [List.drop_append_of_le_length hk]
  have hdrop :
      (c.entries.drop ((c.entries ++ [(fp, v)]).length - capacity)).find?
        (fun e => e.1 = fp) = none := by
    rw [List.find?_eq_none] at hfind ⊢
    exact fun x hx => hfind x (List.mem_of_mem_drop hx)
  rw [find?_append_of_none _ _ _ hdrop]
  simp [List.find?]

theorem getLast?_cons_or {α : Type} (a : α) (l : List α) :
    (a :: l).getLast? = l.getLast?.or (some a) := by
  rw [show a :: l = [a] ++ l from rfl, List.getLast?_append]
  rfl

theorem splitSystem_foldl (l : List Message) :
    ∀ (w : List AMessage) (s : Option Message),
      l.foldl
        (fun (acc : List AMessage × Option Message) m =>
          if m.role = "system" then (acc.1, some m)
          else (acc.1 ++ [wrapMessage m], acc.2))
        (w, s)
        = (w ++ (l.filter (fun m => m.role ≠ "system")).map wrapMessage,
           ((l.filter (fun m => m.role = "system")).getLast?).or s) := by
  induction l with
  | nil => intro w s; simp
  | cons m l ih =>
    intro w s
    simp only [List.foldl_cons]
    by_cases hm : m.role = "system"
    · rw [if_pos hm, ih]
      refine Prod.ext ?_ ?_
      · simp [List.filter_cons, hm]
      · simp only [List.filter_cons, hm]
        simp only [ne_eq, not_true_eq_false, decide_False, decide_True,
          if_true, Bool.false_eq_true, if_false]
        rw [getLast?_cons_or, Option.or_assoc]
        rfl
    · rw [if_neg hm, ih]
      refine Prod.ext ?_ ?_
      · simp [List.filter_cons, hm]
      · simp [List.filter_cons, hm]

theorem splitSystem_eq (messages : List Message) :
    splitSystem messages
      = ((messages.filter (fun m => m.role ≠ "system")).map wrapMessage,
         (messages.filter (fun m => m.role = "system")).getLast?) := by
  unfold splitSystem
  rw [splitSystem_foldl]
  simp

theorem commitIfCompleted_error (cap : ℕ) (b : Bool) (fp : Fingerprint)
    (r : EngineResult) : (commitIfCompleted cap b fp r).error = r.error := by
  unfold commitIfCompleted; split <;> rfl

theorem commitIfCompleted_fragments (cap : ℕ) (b : Bool) (fp : Fingerprint)
    (r : EngineResult) :
    (commitIfCompleted cap b fp r).fragments = r.fragments := by
  unfold commitIfCompleted; split <;> rfl

theorem commitIfCompleted_messages (cap : ℕ) (b : Bool) (fp : Fingerprint)
    (r : EngineResult) :
    (commitIfCompleted cap b fp r).messages = r.messages := by
  unfold commitIfCompleted; split <;> rfl

theorem commitIfCompleted_kwargs (cap : ℕ) (b : Bool) (fp : Fingerprint)
    (r : EngineResult) : (commitIfCompleted cap b fp r).kwargs = r.kwargs := by
  unfold commitIfCompleted; split <;> rfl

theorem commitIfCompleted_vendorCalls (cap : ℕ) (b : Bool) (fp : Fingerprint)
    (r : EngineResult) :
    (commitIfCompleted cap b fp r).vendorCalls = r.vendorCalls := by
  unfold commitIfCompleted; split <;> rfl

theorem commitIfCompleted_engineFlags (cap : ℕ) (b : Bool) (fp : Fingerprint)
    (r : EngineResult) :
    (commitIfCompleted cap b fp r).engineFlags = r.engineFlags := by
  unfold commitIfCompleted; split <;> rfl

theorem commitIfCompleted_of_not_caching (cap : ℕ) (fp : Fingerprint)
    (r : EngineResult) : commitIfCompleted cap false fp r = r := by
  unfold commitIfCompleted
  rw [if_neg]
  rintro ⟨h, _⟩
  exact Bool.false_ne_true h

theorem commitIfCompleted_cache_of_completed (cap : ℕ) (fp : Fingerprint)
    (r : EngineResult) (h : r.error = none) :
    (commitIfCompleted cap true fp r).cache
      = r.cache.insert cap fp r.fragments := by
  unfold commitIfCompleted
  rw [if_pos ⟨rfl, h⟩]

theorem run_cache_of_not_caching (jl : String → Option ArgsDict)
    (gf : String → Option (ArgsDict → String)) (so rs rc rd : Bool) (cap : ℕ)
    (streams : List (List Chunk)) :
    ∀ (cache : CacheState) (kwargs : AdditionalKwargs) (model : String)
      (t p : Temp) (messages : List Message)
      (functions : Option (List FunctionSchema)),
      (getCompletionAux jl gf so rs rc rd cap streams cache kwargs false model
        t p messages functions).cache = cache := by
  induction streams with
  | nil =>
    intro cache kwargs model t p messages functions
    rfl
  | cons s rest ih =>
    intro cache kwargs model t p messages functions
    rw [getCompletionAux.eq_def]
    cases hpc : processChunks s "" "" with
    | completed frags => simp [hpc, commitIfCompleted]
    | failed frags e => simp [hpc]
    | functionCall frags name arguments =>
      rcases hh : handle_function_call jl gf so messages name arguments
        with ⟨m', hf, err⟩
      cases err with
      | none => simp [hpc, hh, commitIfCompleted, ih]
      | some e => simp [hpc, hh]

theorem run_eq_hit (jl : String → Option ArgsDict)
    (gf : String → Option (ArgsDict → String)) (so rs rc rd : Bool) (cap : ℕ)
    (streams : List (List Chunk)) (cache : CacheState)
    (kwargs : AdditionalKwargs) (caching : Bool) (model : String) (t p : Temp)
    (messages : List Message) (functions : Option (List FunctionSchema))
    (v : List String)
    (hhit : (if caching then
        cache.lookup ⟨model, t, p, messages, functions⟩ else none) = some v) :
    getCompletionAux jl gf so rs rc rd cap streams cache kwargs caching model
      t p messages functions
      = { fragments := v, messages := messages, kwargs := kwargs,
          cache := cache, vendorCalls := [], engineFlags := [caching],
          error := none } := by
  rw [getCompletionAux.eq_def]; dsimp only; rw [hhit]

theorem run_eq_nostream (jl : String → Option ArgsDict)
    (gf : String → Option (ArgsDict → String)) (so rs rc rd : Bool) (cap : ℕ)
    (cache : CacheState) (kwargs : AdditionalKwargs) (caching : Bool)
    (model : String) (t p : Temp) (messages : List Message)
    (functions : Option (List FunctionSchema))
    (hmiss : (if caching then
        cache.lookup ⟨model, t, p, messages, functions⟩ else none) = none) :
    getCompletionAux jl gf so rs rc rd cap [] cache kwargs caching model
      t p messages functions
      = { fragments := [], messages := messages,
          kwargs := kwargsStep kwargs (effectiveFunctions rs rc rd functions),
          cache := cache,
          vendorCalls := [⟨model, t, p, messages,
            kwargsStep kwargs (effectiveFunctions rs rc rd functions)⟩],
          engineFlags := [caching], error := some .vendorResponseMissing } := by
  rw [getCompletionAux.eq_def]; dsimp only; rw [hmiss]

theorem run_eq_done (jl : String → Option ArgsDict)
    (gf : String → Option (ArgsDict → String)) (so rs rc rd : Bool) (cap : ℕ)
    (s : List Chunk) (rest : List (List Chunk)) (cache : CacheState)
    (kwargs : AdditionalKwargs) (caching : Bool) (model : String) (t p : Temp)
    (messages : List Message) (functions : Option (List FunctionSchema))
    (frags : List String)
    (hmiss : (if caching then
        cache.lookup ⟨model, t, p, messages, functions⟩ else none) = none)
    (hpc : processChunks s "" "" = .completed frags) :
    getCompletionAux jl gf so rs rc rd cap (s :: rest) cache kwargs caching
      model t p messages functions
      = commitIfCompleted cap caching ⟨model, t, p, messages, functions⟩
          { fragments := frags, messages := messages,
            kwargs := kwargsStep kwargs (effectiveFunctions rs rc rd functions),
            cache := cache,
            vendorCalls := [⟨model, t, p, messages,
              kwargsStep kwargs (effectiveFunctions rs rc rd functions)⟩],
            engineFlags := [caching], error := none } := by
  rw [getCompletionAux.eq_def]; dsimp only; rw [hmiss, hpc]

theorem run_eq_loopfail (jl : String → Option ArgsDict)
    (gf : String → Option (ArgsDict → String)) (so rs rc rd : Bool) (cap : ℕ)
    (s : List Chunk) (rest : List (List Chunk)) (cache : CacheState)
    (kwargs : AdditionalKwargs) (caching : Bool) (model : String) (t p : Temp)
    (messages : List Message) (functions : Option (List FunctionSchema))
    (frags : List String) (e : EngineError)
    (hmiss : (if caching then
        cache.lookup ⟨model, t, p, messages, functions⟩ else none) = none)
    (hpc : processChunks s "" "" = .failed frags e) :
    getCompletionAux jl gf so rs rc rd cap (s :: rest) cache kwargs caching
      model t p messages functions
      = { fragments := frags, messages := messages,
          kwargs := kwargsStep kwargs (effectiveFunctions rs rc rd functions),
          cache := cache,
          vendorCalls := [⟨model, t, p, messages,
            kwargsStep kwargs (effectiveFunctions rs rc rd functions)⟩],
          engineFlags := [caching], error := some e } := by
  rw [getCompletionAux.eq_def]; dsimp only; rw [hmiss, hpc]

theorem run_eq_fail (jl : String → Option ArgsDict)
    (gf : String → Option (ArgsDict → String)) (so rs rc rd : Bool) (cap : ℕ)
    (s : List Chunk) (rest : List (List Chunk)) (cache : CacheState)
    (kwargs : AdditionalKwargs) (caching : Bool) (model : String) (t p : Temp)
    (messages : List Message) (functions : Option (List FunctionSchema))
    (frags : List String) (name arguments : String) (m' : List Message)
    (hf : List String) (e : EngineError)
    (hmiss : (if caching then
        cache.lookup ⟨model, t, p, messages, functions⟩ else none) = none)
    (hpc : processChunks s "" "" = .functionCall frags name arguments)
    (hh : handle_function_call jl gf so messages name arguments
        = (m', hf, some e)) :
    getCompletionAux jl gf so rs rc rd cap (s :: rest) cache kwargs caching
      model t p messages functions
      = { fragments := frags ++ hf, messages := m',
          kwargs := kwargsStep kwargs (effectiveFunctions rs rc rd functions),
          cache := cache,
          vendorCalls := [⟨model, t, p, messages,
            kwargsStep kwargs (effectiveFunctions rs rc rd functions)⟩],
          engineFlags := [caching], error := some e } := by
  rw [getCompletionAux.eq_def]; dsimp only; rw [hmiss, hpc]; dsimp only; rw [hh]

theorem run_eq_fncall (jl : String → Option ArgsDict)
    (gf : String → Option (ArgsDict → String)) (so rs rc rd : Bool) (cap : ℕ)
    (s : List Chunk) (rest : List (List Chunk)) (cache : CacheState)
    (kwargs : AdditionalKwargs) (caching : Bool) (model : String) (t p : Temp)
    (messages : List Message) (functions : Option (List FunctionSchema))
    (frags : List String) (name arguments : String) (m' : List Message)
    (hf : List String)
    (hmiss : (if caching then
        cache.lookup ⟨model, t, p, messages, functions⟩ else none) = none)
    (hpc : processChunks s "" "" = .functionCall frags name arguments)
    (hh : handle_function_call jl gf so messages name arguments
        = (m', hf, none)) :
    getCompletionAux jl gf so rs rc rd cap (s :: rest) cache kwargs caching
      model t p messages functions
      = (let r := getCompletionAux jl gf so rs rc rd cap rest cache
           (kwargsStep kwargs (effectiveFunctions rs rc rd functions)) false
           model t p m' (effectiveFunctions rs rc rd functions)
         commitIfCompleted cap caching ⟨model, t, p, messages, functions⟩
           { fragments := frags ++ hf ++ r.fragments, messages := r.messages,
             kwargs := r.kwargs, cache := r.cache,
             vendorCalls := ⟨model, t, p, messages,
               kwargsStep kwargs (effectiveFunctions rs rc rd functions)⟩
               :: r.vendorCalls,
             engineFlags := caching :: r.engineFlags, error := r.error }) := by
  rw [getCompletionAux.eq_def]; dsimp only; rw [hmiss, hpc]; dsimp only; rw [hh]

theorem run_vendorCalls_of_not_caching (jl : String → Option ArgsDict)
    (gf : String → Option (ArgsDict → String)) (so rs rc rd : Bool) (cap : ℕ)
    (streams : List (List Chunk)) (cache : CacheState)
    (kwargs : AdditionalKwargs) (model : String) (t p : Temp)
    (messages : List Message) (functions : Option (List FunctionSchema)) :
    (getCompletionAux jl gf so rs rc rd cap streams cache kwargs false model
      t p messages functions).vendorCalls ≠ [] := by
  cases streams with
  | nil =>
    rw [run_eq_nostream jl gf so rs rc rd cap cache kwargs false model t p
      messages functions rfl]
    simp
  | cons s rest =>
    cases hpc : processChunks s "" "" with
    | completed frags =>
      rw [run_eq_done jl gf so rs rc rd cap s rest cache kwargs false model
        t p messages functions frags rfl hpc]
      simp [commitIfCompleted_vendorCalls]
    | failed frags e =>
      rw [run_eq_loopfail jl gf so rs rc rd cap s rest cache kwargs false
        model t p messages functions frags e rfl hpc]
      simp
    | functionCall frags name arguments =>
      rcases hh : handle_function_call jl gf so messages name arguments
        with ⟨m', hf, err⟩
      cases err with
      | some e =>
        rw [run_eq_fail jl gf so rs rc rd cap s rest cache kwargs false model
          t p messages functions frags name arguments m' hf e rfl hpc hh]
        simp
      | none =>
        rw [run_eq_fncall jl gf so rs rc rd cap s rest cache kwargs false
          model t p messages functions frags name arguments m' hf rfl hpc hh]
        dsimp only
        simp [commitIfCompleted_vendorCalls]

theorem effectiveFunctions_idem (rs rc rd : Bool)
    (f : Option (List FunctionSchema)) :
    effectiveFunctions rs rc rd (effectiveFunctions rs rc rd f)
      = effectiveFunctions rs rc rd f := by
  unfold effectiveFunctions
  cases (rs || rc || rd) <;> simp

theorem kwargsStep_of_falsy (kwargs : AdditionalKwargs)
    (f : Option (List FunctionSchema)) (h : functionsTruthy f = false) :
    kwargsStep kwargs f = kwargs := by
  unfold kwargsStep
  rw [h]
  rfl

theorem run_commits (jl : String → Option ArgsDict)
    (gf : String → Option (ArgsDict → String)) (so rs rc rd : Bool) (cap : ℕ)
    (streams : List (List Chunk)) (cache : CacheState)
    (kwargs : AdditionalKwargs) (model : String) (t p : Temp)
    (messages : List Message) (functions : Option (List FunctionSchema))
    (hmiss : cache.lookup ⟨model, t, p, messages, functions⟩ = none)
    (hcap : 1 ≤ cap)
    (herr : (getCompletionAux jl gf so rs rc rd cap streams cache kwargs true
      model t p messages functions).error = none) :
    (getCompletionAux jl gf so rs rc rd cap streams cache kwargs true model
      t p messages functions).cache.lookup ⟨model, t, p, messages, functions⟩
      = some (getCompletionAux jl gf so rs rc rd cap streams cache kwargs true
          model t p messages functions).fragments := by
  have hmiss' : (if true then
      cache.lookup ⟨model, t, p, messages, functions⟩ else none) = none := by
    simpa using hmiss
  cases streams with
  | nil =>
    rw [run_eq_nostream jl gf so rs rc rd cap cache kwargs true model t p
      messages functions hmiss'] at herr
    simp at herr
  | cons s rest =>
    cases hpc : processChunks s "" "" with
    | completed frags =>
      rw [run_eq_done jl gf so rs rc rd cap s rest cache kwargs true model
        t p messages functions frags hmiss' hpc]
      rw [commitIfCompleted_cache_of_completed _ _ _ rfl,
        commitIfCompleted_fragments]
      exact CacheState.lookup_insert_self cap cache _ frags hmiss hcap
    | failed frags e =>
      rw [run_eq_loopfail jl gf so rs rc rd cap s rest cache kwargs true
        model t p messages functions frags e hmiss' hpc] at herr
      simp at herr
    | functionCall frags name arguments =>
      rcases hh : handle_function_call jl gf so messages name arguments
        with ⟨m', hf, err⟩
      cases err with
      | some e =>
        rw [run_eq_fail jl gf so rs rc rd cap s rest cache kwargs true model
          t p messages functions frags name arguments m' hf e hmiss' hpc hh]
          at herr
        simp at herr
      | none =>
        rw [run_eq_fncall jl gf so rs rc rd cap s rest cache kwargs true
          model t p messages functions frags name arguments m' hf hmiss' hpc
          hh] at herr ⊢
        dsimp only at herr ⊢
        simp only [commitIfCompleted_error] at herr
        rw [commitIfCompleted_cache_of_completed, commitIfCompleted_fragments]
        · simp only [run_cache_of_not_caching jl gf so rs rc rd cap rest]
          exact CacheState.lookup_insert_self cap cache _ _ hmiss hcap
        · exact herr

theorem run_override (jl : String → Option ArgsDict)
    (gf : String → Option (ArgsDict → String)) (so rs rc rd : Bool) (cap : ℕ)
    (streams : List (List Chunk)) (cache : CacheState)
    (kwargs : AdditionalKwargs) (model : String) (t p : Temp)
    (messages : List Message) (hrole : (rs || rc || rd) = true)
    (functions : Option (List FunctionSchema)) :
    getCompletionAux jl gf so rs rc rd cap streams cache kwargs false model
      t p messages functions
      = getCompletionAux jl gf so rs rc rd cap streams cache kwargs false
          model t p messages none := by
  have heff : ∀ f : Option (List FunctionSchema),
      effectiveFunctions rs rc rd f = none := by
    intro f; unfold effectiveFunctions; rw [hrole]; rfl
  cases streams with
  | nil =>
    rw [run_eq_nostream jl gf so rs rc rd cap cache kwargs false model t p
      messages functions rfl,
      run_eq_nostream jl gf so rs rc rd cap cache kwargs false model t p
      messages none rfl, heff, heff]
  | cons s rest =>
    cases hpc : processChunks s "" "" with
    | completed frags =>
      rw [run_eq_done jl gf so rs rc rd cap s rest cache kwargs false model
        t p messages functions frags rfl hpc,
        run_eq_done jl gf so rs rc rd cap s rest cache kwargs false model
        t p messages none frags rfl hpc,
        commitIfCompleted_of_not_caching, commitIfCompleted_of_not_caching,
        heff, heff]
    | failed frags e =>
      rw [run_eq_loopfail jl gf so rs rc rd cap s rest cache kwargs false
        model t p messages functions frags e rfl hpc,
        run_eq_loopfail jl gf so rs rc rd cap s rest cache kwargs false
        model t p messages none frags e rfl hpc,
        heff, heff]
    | functionCall frags name arguments =>
      rcases hh : handle_function_call jl gf so messages name arguments
        with ⟨m', hf, err⟩
      cases err with
      | some e =>
        rw [run_eq_fail jl gf so rs rc rd cap s rest cache kwargs false model
          t p messages functions frags name arguments m' hf e rfl hpc hh,
          run_eq_fail jl gf so rs rc rd cap s rest cache kwargs false model
          t p messages none frags name arguments m' hf e rfl hpc hh,
          heff, heff]
      | none =>
        rw [run_eq_fncall jl gf so rs rc rd cap s rest cache kwargs false
          model t p messages functions frags name arguments m' hf rfl hpc hh,
          run_eq_fncall jl gf so rs rc rd cap s rest cache kwargs false
          model t p messages none frags name arguments m' hf rfl hpc hh,
          commitIfCompleted_of_not_caching, commitIfCompleted_of_not_caching,
          heff, heff]

theorem run_kwargs_of_falsy (jl : String → Option ArgsDict)
    (gf : String → Option (ArgsDict → String)) (so rs rc rd : Bool) (cap : ℕ)
    (streams : List (List Chunk)) :
    ∀ (cache : CacheState) (kwargs : AdditionalKwargs) (caching : Bool)
      (model : String) (t p : Temp) (messages : List Message)
      (functions : Option (List FunctionSchema)),
      functionsTruthy (effectiveFunctions rs rc rd functions) = false →
      (getCompletionAux jl gf so rs rc rd cap streams cache kwargs caching
        model t p messages functions).kwargs = kwargs
      ∧ ∀ vc ∈ (getCompletionAux jl gf so rs rc rd cap streams cache kwargs
          caching model t p messages functions).vendorCalls,
          vc.kwargs = kwargs := by
  induction streams with
  | nil =>
    intro cache kwargs caching model t p messages functions hfal
    have hks := kwargsStep_of_falsy kwargs _ hfal
    cases hl : (if caching then
        cache.lookup ⟨model, t, p, messages, functions⟩ else none) with
    | some v =>
      rw [run_eq_hit jl gf so rs rc rd cap [] cache kwargs caching model t p
        messages functions v hl]
      simp
    | none =>
      rw [run_eq_nostream jl gf so rs rc rd cap cache kwargs caching model
        t p messages functions hl]
      simp [hks]
  | cons s rest ih =>
    intro cache kwargs caching model t p messages functions hfal
    have hks := kwargsStep_of_falsy kwargs _ hfal
    have hfal' : functionsTruthy
        (effectiveFunctions rs rc rd (effectiveFunctions rs rc rd functions))
        = false := by
      rw [effectiveFunctions_idem]; exact hfal
    cases hl : (if caching then
        cache.lookup ⟨model, t, p, messages, functions⟩ else none) with
    | some v =>
      rw [run_eq_hit jl gf so rs rc rd cap (s :: rest) cache kwargs caching
        model t p messages functions v hl]
      simp
    | none =>
      cases hpc : processChunks s "" "" with
      | completed frags =>
        rw [run_eq_done jl gf so rs rc rd cap s rest cache kwargs caching
          model t p messages functions frags hl hpc]
        simp [commitIfCompleted_kwargs, commitIfCompleted_vendorCalls, hks]
      | failed frags e =>
        rw [run_eq_loopfail jl gf so rs rc rd cap s rest cache kwargs caching
          model t p messages functions frags e hl hpc]
        simp [hks]
      | functionCall frags name arguments =>
        rcases hh : handle_function_call jl gf so messages name arguments
          with ⟨m', hf, err⟩
        cases err with
        | some e =>
          rw [run_eq_fail jl gf so rs rc rd cap s rest cache kwargs caching
            model t p messages functions frags name arguments m' hf e hl hpc
            hh]
          simp [hks]
        | none =>
          rw [run_eq_fncall jl gf so rs rc rd cap s rest cache kwargs caching
            model t p messages functions frags name arguments m' hf hl hpc hh]
          dsimp only
          rw [hks]
          obtain ⟨ih1, ih2⟩ := ih cache kwargs false model t p m'
            (effectiveFunctions rs rc rd functions) hfal'
          constructor
          · simp only [commitIfCompleted_kwargs]
            exact ih1
          · simp only [commitIfCompleted_vendorCalls]
            intro vc hvc
            rcases List.mem_cons.mp hvc with hvc | hvc
            · rw [hvc]
            · exact ih2 vc hvc

theorem nameFragments_cons (c : Chunk) (l : List Chunk) :
    nameFragments (c :: l)
      = (chunkToolCalls c).map (·.function.name) ++ nameFragments l := by
  simp [nameFragments, allToolCalls_cons]

theorem argumentFragments_cons (c : Chunk) (l : List Chunk) :
    argumentFragments (c :: l)
      = (chunkToolCalls c).map (·.function.arguments) ++ argumentFragments l := by
  simp [argumentFragments, allToolCalls_cons]

/-! # Claims -/

/-- C1 (code_bug evaluation): at the failing input — a `caching=true`
request whose streamed response has two text chunks — the loop raises
`NameError` (line 163, `use_litellm` undefined) on the first chunk: the
stream never completes, nothing is committed under the request's
fingerprint, and repeating the identical request invokes the vendor
again (one recorded vendor call) instead of replaying without one. -/
theorem caching_nameError_evaluation :
    (getCompletionAux (fun _ => none) (fun _ => none) false false false
      false 1 [[⟨⟨some "Hi", none⟩, none⟩, ⟨⟨some " there", none⟩, none⟩]]
      ⟨[]⟩ {} true "m" 0 0 [] none).error = some .nameError
    ∧ (getCompletionAux (fun _ => none) (fun _ => none) false false false
        false 1 [[⟨⟨some "Hi", none⟩, none⟩, ⟨⟨some " there", none⟩, none⟩]]
        ⟨[]⟩ {} true "m" 0 0 [] none).cache = ⟨[]⟩
    ∧ (getCompletionAux (fun _ => none) (fun _ => none) false false false
        false 1 [[⟨⟨some "Hi", none⟩, none⟩, ⟨⟨some " there", none⟩, none⟩]]
        (getCompletionAux (fun _ => none) (fun _ => none) false false false
          false 1
          [[⟨⟨some "Hi", none⟩, none⟩, ⟨⟨some " there", none⟩, none⟩]]
          ⟨[]⟩ {} true "m" 0 0 [] none).cache
        (getCompletionAux (fun _ => none) (fun _ => none) false false false
          false 1
          [[⟨⟨some "Hi", none⟩, none⟩, ⟨⟨some " there", none⟩, none⟩]]
          ⟨[]⟩ {} true "m" 0 0 [] none).kwargs
        true "m" 0 0 [] none).vendorCalls = [⟨"m", 0, 0, [], {}⟩] := by
  decide

/-- C2 (code_bug evaluation): with the consumer intending to stop after
one fragment (budget 1), the loop fails with `NameError` before the
first yield, so the `except KeyboardInterrupt` clause never fires: the
`.interrupted` outcome (whose `closed` flag records `response.close()`)
is unreachable, the stream is NOT closed by the engine, and the
exception — not a clean interrupt — is what keeps the fingerprint out of
the cache. -/
theorem interrupt_unreachable_nameError :
    runStreamI [⟨⟨some "a", none⟩, none⟩, ⟨⟨some "b", none⟩, none⟩] "" ""
      (some 1) = .failed [] .nameError
    ∧ cachedStreamRun 1 ⟨[]⟩ ⟨"m", 0, 0, [], none⟩ true
        [⟨⟨some "a", none⟩, none⟩, ⟨⟨some "b", none⟩, none⟩] (some 1)
      = (.failed [] .nameError, ⟨[]⟩)
    ∧ (cachedStreamRun 1 ⟨[]⟩ ⟨"m", 0, 0, [], none⟩ true
        [⟨⟨some "a", none⟩, none⟩, ⟨⟨some "b", none⟩, none⟩]
        (some 1)).2.lookup ⟨"m", 0, 0, [], none⟩ = none := by
  decide

/-- C3 (code_bug evaluation): at the failing input — a response whose
single chunk carries the tool call `("list_dir", "a")` and a
`"tool_calls"` finish reason, with a parser accepting the blob and a
registry resolving the name — the engine fails with `NameError` before
the finish-reason check at line 171: the transcript is unchanged (no
assistant message, no function message), no recursive completion call is
issued (`engineFlags = [false]`), and exactly one vendor invocation was
made. -/
theorem function_call_unreachable_nameError :
    (getCompletionAux
      (fun s => if s = "a" then some [("path", ".")] else none)
      (fun n => if n = "list_dir"
        then some (fun _ => "ok") else (none : Option (ArgsDict → String)))
      false false false false 1
      [[⟨⟨none, some [⟨⟨"list_dir", "a"⟩⟩]⟩, some "tool_calls"⟩], []]
      ⟨[]⟩ {} false "m" 0 0 [] none).error = some .nameError
    ∧ (getCompletionAux
        (fun s => if s = "a" then some [("path", ".")] else none)
        (fun n => if n = "list_dir"
          then some (fun _ => "ok") else (none : Option (ArgsDict → String)))
        false false false false 1
        [[⟨⟨none, some [⟨⟨"list_dir", "a"⟩⟩]⟩, some "tool_calls"⟩], []]
        ⟨[]⟩ {} false "m" 0 0 [] none).messages = []
    ∧ (getCompletionAux
        (fun s => if s = "a" then some [("path", ".")] else none)
        (fun n => if n = "list_dir"
          then some (fun _ => "ok") else (none : Option (ArgsDict → String)))
        false false false false 1
        [[⟨⟨none, some [⟨⟨"list_dir", "a"⟩⟩]⟩, some "tool_calls"⟩], []]
        ⟨[]⟩ {} false "m" 0 0 [] none).engineFlags = [false]
    ∧ (getCompletionAux
        (fun s => if s = "a" then some [("path", ".")] else none)
        (fun n => if n = "list_dir"
          then some (fun _ => "ok") else (none : Option (ArgsDict → String)))
        false false false false 1
        [[⟨⟨none, some [⟨⟨"list_dir", "a"⟩⟩]⟩, some "tool_calls"⟩], []]
        ⟨[]⟩ {} false "m" 0 0 [] none).vendorCalls.length = 1 := by
  decide

/-- C4 counterexample: two chunks deliver the name fragments `"foo"`
and `"bar"` (the first also carries text content `"t"`); the claim
predicts the fragments are concatenated into the dispatched name and the
text yielded as it arrives, but the program raises `NameError` on the
first chunk: no fragment is yielded, nothing is dispatched, and the
transcript is untouched. -/
theorem accumulation_claim_counterexample :
    (getCompletionAux (fun _ => some []) (fun n => some (fun _ => n)) false
      false false false 1
      [[⟨⟨some "t", some [⟨⟨"foo", ""⟩⟩]⟩, none⟩,
        ⟨⟨none, some [⟨⟨"bar", ""⟩⟩]⟩, none⟩,
        ⟨⟨none, none⟩, some "tool_calls"⟩], []]
      ⟨[]⟩ {} false "m" 0 0 [] none).fragments = []
    ∧ (getCompletionAux (fun _ => some []) (fun n => some (fun _ => n)) false
        false false false 1
        [[⟨⟨some "t", some [⟨⟨"foo", ""⟩⟩]⟩, none⟩,
          ⟨⟨none, some [⟨⟨"bar", ""⟩⟩]⟩, none⟩,
          ⟨⟨none, none⟩, some "tool_calls"⟩], []]
        ⟨[]⟩ {} false "m" 0 0 [] none).messages = []
    ∧ (getCompletionAux (fun _ => some []) (fun n => some (fun _ => n)) false
        false false false 1
        [[⟨⟨some "t", some [⟨⟨"foo", ""⟩⟩]⟩, none⟩,
          ⟨⟨none, some [⟨⟨"bar", ""⟩⟩]⟩, none⟩,
          ⟨⟨none, none⟩, some "tool_calls"⟩], []]
        ⟨[]⟩ {} false "m" 0 0 [] none).error = some .nameError := by
  decide

/-- C4 amended: as written, the loop raises `NameError` on the first
chunk of every non-empty response (nothing is yielded, nothing reaches
dispatch); the accumulation step the loop guards (lines 165-170, dead
code as written) concatenates ARGUMENT fragments in arrival order while
each non-empty NAME fragment overwrites the previous one, so the
accumulated name is the last non-empty name fragment, not a
concatenation. -/
theorem stream_accumulation_amended :
    (∀ (c : Chunk) (rest : List Chunk) (n a : String),
      processChunks (c :: rest) n a = .failed [] .nameError)
    ∧ (∀ (tcs : List ToolCall) (n a : String),
      accumulateToolCalls n a tcs
        = (lastNonEmpty (tcs.map (·.function.name)) n,
           a ++ concatFragments (tcs.map (·.function.arguments)))) :=
  ⟨fun _ _ _ _ => rfl, fun tcs n a => accumulateToolCalls_eq tcs n a⟩

/-- C5 counterexample: "no tools are offered to the vendor" does not
hold for a shell-role request when an earlier request in the process
already added tool keys to the shared `additional_kwargs`: the override
discards this request's `functions = some ["g"]`, but the vendor call
still carries the stale `tools = ["f1"]` from the earlier request. -/
theorem role_override_stale_tools_counterexample :
    (getCompletionAux (fun _ => none) (fun _ => none) false true false
      false 1 []
      (getCompletionAux (fun _ => none) (fun _ => none) false false false
        false 1 [[⟨⟨some "Hi", none⟩, none⟩]] ⟨[]⟩ {} false "m" 0 0 []
        (some ["f1"])).cache
      (getCompletionAux (fun _ => none) (fun _ => none) false false false
        false 1 [[⟨⟨some "Hi", none⟩, none⟩]] ⟨[]⟩ {} false "m" 0 0 []
        (some ["f1"])).kwargs
      false "m" 0 0 [] (some ["g"])).vendorCalls
      = [⟨"m", 0, 0, [],
          ⟨some "auto", some ["f1"], some false⟩⟩] := by
  decide

/-- C5 amended: under the shell-command, code or describe-shell role the
`functions = None` override is unconditional: the run is identical to a
run with no functions supplied, and no tool keys are added to the shared
kwargs by this request (every vendor call carries the incoming shared
kwargs unchanged); consequently no tools are offered to the vendor
whenever the shared mapping does not already carry a `tools` key from an
earlier request. -/
theorem role_override_disables_functions (jl : String → Option ArgsDict)
    (gf : String → Option (ArgsDict → String)) (so rs rc rd : Bool) (cap : ℕ)
    (streams : List (List Chunk)) (cache : CacheState)
    (kwargs : AdditionalKwargs) (model : String) (t p : Temp)
    (messages : List Message) (hrole : (rs || rc || rd) = true) :
    (∀ functions : Option (List FunctionSchema),
       getCompletionAux jl gf so rs rc rd cap streams cache kwargs false
         model t p messages functions
         = getCompletionAux jl gf so rs rc rd cap streams cache kwargs false
             model t p messages none)
    ∧ (∀ (functions : Option (List FunctionSchema)) (caching : Bool),
        (getCompletionAux jl gf so rs rc rd cap streams cache kwargs caching
          model t p messages functions).kwargs = kwargs
        ∧ ∀ vc ∈ (getCompletionAux jl gf so rs rc rd cap streams cache kwargs
            caching model t p messages functions).vendorCalls,
            vc.kwargs = kwargs)
    ∧ (kwargs.tools = none →
        ∀ (functions : Option (List FunctionSchema)) (caching : Bool),
          ∀ vc ∈ (getCompletionAux jl gf so rs rc rd cap streams cache kwargs
              caching model t p messages functions).vendorCalls,
            vc.kwargs.tools = none) := by
  have hfal : ∀ functions : Option (List FunctionSchema),
      functionsTruthy (effectiveFunctions rs rc rd functions) = false := by
    intro functions; unfold effectiveFunctions; rw [hrole]; rfl
  refine ⟨fun functions => run_override jl gf so rs rc rd cap streams cache
    kwargs model t p messages hrole functions, ?_, ?_⟩
  · intro functions caching
    exact run_kwargs_of_falsy jl gf so rs rc rd cap streams cache kwargs
      caching model t p messages functions (hfal functions)
  · intro ht functions caching vc hvc
    have h2 := (run_kwargs_of_falsy jl gf so rs rc rd cap streams cache
      kwargs caching model t p messages functions (hfal functions)).2 vc hvc
    rw [h2]
    exact ht

/-- Witness for C5 with the shell-role comparison true. -/
theorem role_override_witness :
    (true || false || false) = true
    ∧ ((∀ functions : Option (List FunctionSchema),
         getCompletionAux (fun _ => none) (fun _ => none) false true false
           false 1 [] ⟨[]⟩ {} false "m" 0 0 [] functions
           = getCompletionAux (fun _ => none) (fun _ => none) false true
               false false 1 [] ⟨[]⟩ {} false "m" 0 0 [] none)
       ∧ (∀ (functions : Option (List FunctionSchema)) (caching : Bool),
           (getCompletionAux (fun _ => none) (fun _ => none) false true false
             false 1 [] ⟨[]⟩ {} caching "m" 0 0 [] functions).kwargs = {}
           ∧ ∀ vc ∈ (getCompletionAux (fun _ => none) (fun _ => none) false
               true false false 1 [] ⟨[]⟩ {} caching "m" 0 0 []
               functions).vendorCalls, vc.kwargs = {})
       ∧ (AdditionalKwargs.tools {} = none →
           ∀ (functions : Option (List FunctionSchema)) (caching : Bool),
             ∀ vc ∈ (getCompletionAux (fun _ => none) (fun _ => none) false
                 true false false 1 [] ⟨[]⟩ {} caching "m" 0 0 []
                 functions).vendorCalls, vc.kwargs.tools = none)) :=
  ⟨rfl, role_override_disables_functions (fun _ => none) (fun _ => none)
    false true false false 1 [] ⟨[]⟩ {} "m" 0 0 [] rfl⟩

/-- C6: when a non-empty function schema list survives the role
override, the vendor invocation of that request carries
`tool_choice="auto"`, `tools=functions`, and
`parallel_tool_calls=False`. -/
theorem functions_request_tool_kwargs (jl : String → Option ArgsDict)
    (gf : String → Option (ArgsDict → String)) (so rs rc rd : Bool) (cap : ℕ)
    (streams : List (List Chunk)) (cache : CacheState)
    (kwargs : AdditionalKwargs) (caching : Bool) (model : String)
    (t p : Temp) (messages : List Message) (l : List FunctionSchema)
    (hrole : (rs || rc || rd) = false) (hl : l ≠ [])
    (hmiss : (if caching then
        cache.lookup ⟨model, t, p, messages, some l⟩ else none) = none) :
    (getCompletionAux jl gf so rs rc rd cap streams cache kwargs caching
      model t p messages (some l)).vendorCalls.head?
      = some ⟨model, t, p, messages,
          { kwargs with tool_choice := some "auto", tools := some l,
                        parallel_tool_calls := some false }⟩ := by
  have heff : effectiveFunctions rs rc rd (some l) = some l := by
    unfold effectiveFunctions; rw [hrole]; rfl
  have htr : functionsTruthy (some l) = true := by
    unfold functionsTruthy
    cases l with
    | nil => exact absurd rfl hl
    | cons x xs => rfl
  have hks : kwargsStep kwargs (effectiveFunctions rs rc rd (some l))
      = { kwargs with tool_choice := some "auto", tools := some l,
                      parallel_tool_calls := some false } := by
    unfold kwargsStep
    rw [heff, htr]
    rfl
  cases streams with
  | nil =>
    rw [run_eq_nostream jl gf so rs rc rd cap cache kwargs caching model t p
      messages (some l) hmiss]
    simp [hks]
  | cons s rest =>
    cases hpc : processChunks s "" "" with
    | completed frags =>
      rw [run_eq_done jl gf so rs rc rd cap s rest cache kwargs caching model
        t p messages (some l) frags hmiss hpc]
      simp [commitIfCompleted_vendorCalls, hks]
    | failed frags e =>
      rw [run_eq_loopfail jl gf so rs rc rd cap s rest cache kwargs caching
        model t p messages (some l) frags e hmiss hpc]
      simp [hks]
    | functionCall frags name arguments =>
      rcases hh : handle_function_call jl gf so messages name arguments
        with ⟨m', hf, err⟩
      cases err with
      | some e =>
        rw [run_eq_fail jl gf so rs rc rd cap s rest cache kwargs caching
          model t p messages (some l) frags name arguments m' hf e hmiss hpc
          hh]
        simp [hks]
      | none =>
        rw [run_eq_fncall jl gf so rs rc rd cap s rest cache kwargs caching
          model t p messages (some l) frags name arguments m' hf hmiss hpc
          hh]
        dsimp only
        simp [commitIfCompleted_vendorCalls, hks]

/-- Witness for C6 with one schema `"f"`. -/
theorem functions_request_tool_kwargs_witness :
    (false || false || false) = false
    ∧ (["f"] : List FunctionSchema) ≠ []
    ∧ ((if false then
        CacheState.lookup ⟨[]⟩ ⟨"m", 0, 0, [], some ["f"]⟩ else none) = none)
    ∧ (getCompletionAux (fun _ => none) (fun _ => none) false false false
        false 1 [] ⟨[]⟩ {} false "m" 0 0 [] (some ["f"])).vendorCalls.head?
        = some ⟨"m", 0, 0, [],
            { tool_choice := some "auto", tools := some ["f"],
              parallel_tool_calls := some false }⟩ :=
  ⟨rfl, by decide, rfl,
    functions_request_tool_kwargs (fun _ => none) (fun _ => none) false false
      false false 1 [] ⟨[]⟩ {} false "m" 0 0 [] ["f"] rfl (by decide) rfl⟩

/-- C7: on the keyword call shape the Anthropic adapter removes the
system message(s) from the message array, passes the (last) system
message's content as the separate top-level `system` field, and wraps
the content of every remaining message as a singleton list of typed
`{"type": "text"}` content blocks, before dispatch. -/
theorem anthropic_adapter_reshapes (model : String) (messages : List Message)
    (sys : Message)
    (hsys : (messages.filter (fun m => m.role = "system")).getLast?
      = some sys)
    (hmodel : model = "claude-3-5-sonnet-20241022") :
    adaptParametersToAnthropic model messages
      = .ok ((messages.filter (fun m => m.role ≠ "system")).map wrapMessage,
             sys.content) := by
  unfold adaptParametersToAnthropic
  rw [splitSystem_eq]
  dsimp only
  rw [hsys]
  dsimp only
  rw [if_pos hmodel]

/-- Witness for C7: a system message followed by a user message. -/
theorem anthropic_adapter_reshapes_witness :
    (([(⟨"system", "S", none, none⟩ : Message),
        ⟨"user", "hello", none, none⟩].filter
        (fun m => m.role = "system")).getLast?
      = some ⟨"system", "S", none, none⟩)
    ∧ "claude-3-5-sonnet-20241022" = "claude-3-5-sonnet-20241022"
    ∧ adaptParametersToAnthropic "claude-3-5-sonnet-20241022"
        [⟨"system", "S", none, none⟩, ⟨"user", "hello", none, none⟩]
        = .ok ([⟨"user", [⟨"text", "hello"⟩]⟩], "S") :=
  ⟨by decide, rfl,
    anthropic_adapter_reshapes "claude-3-5-sonnet-20241022"
      [⟨"system", "S", none, none⟩, ⟨"user", "hello", none, none⟩]
      ⟨"system", "S", none, none⟩ (by decide) rfl⟩

/-- C8 (code_bug evaluation): the dispatcher as written (lines 101-125,
first conjunct) does fail with the `InvalidArgumentsError` taxon on a
parse failure, appending no function message; but it is never reached:
at the failing input — a response finishing with a tool call whose
accumulated argument blob `"x"` the parser rejects — the engine fails
with `NameError` at line 163 before the finish-reason check, so
`json.loads` at line 118 never runs and no `InvalidArgumentsError` can
surface (second and third conjuncts: the error is `nameError` and the
transcript gains no assistant message either). -/
theorem invalid_arguments_unreachable_nameError :
    handle_function_call (fun _ => none) (fun _ => none) false [] "f" "x"
      = ([{ role := "assistant", content := "",
            function_call := some ("f", "x") }],
         ["\n"], some .invalidArguments)
    ∧ (getCompletionAux (fun _ => none) (fun _ => none) false false false
        false 1 [[⟨⟨none, some [⟨⟨"f", "x"⟩⟩]⟩, some "tool_calls"⟩]]
        ⟨[]⟩ {} false "m" 0 0 [] none).error = some .nameError
    ∧ (getCompletionAux (fun _ => none) (fun _ => none) false false false
        false 1 [[⟨⟨none, some [⟨⟨"f", "x"⟩⟩]⟩, some "tool_calls"⟩]]
        ⟨[]⟩ {} false "m" 0 0 [] none).messages = [] := by
  refine ⟨rfl, by decide, by decide⟩

/-- C9 counterexample: the keyword arguments do NOT depend only on the
request's own `functions` argument.  A first call with `functions =
some ["f1"]` adds the three tool keys to the shared `additional_kwargs`
and never removes them, so a second call with `functions` absent still
sends `tool_choice="auto"`, `tools=["f1"]`,
`parallel_tool_calls=False` to the vendor. -/
theorem stale_kwargs_counterexample :
    (getCompletionAux (fun _ => none) (fun _ => none) false false false
      false 1 []
      (getCompletionAux (fun _ => none) (fun _ => none) false false false
        false 1 [[⟨⟨some "Hi", none⟩, none⟩]] ⟨[]⟩ {} false "m" 0 0 []
        (some ["f1"])).cache
      (getCompletionAux (fun _ => none) (fun _ => none) false false false
        false 1 [[⟨⟨some "Hi", none⟩, none⟩]] ⟨[]⟩ {} false "m" 0 0 []
        (some ["f1"])).kwargs
      false "m" 0 0 [] none).vendorCalls
      = [⟨"m", 0, 0, [],
          ⟨some "auto", some ["f1"], some false⟩⟩] := by
  decide

/-- C9 amended: the keyword arguments of a vendor request depend on the
shared `additional_kwargs` state as well as on the request's own
`functions` argument: a call whose (post-override) `functions` is falsy
passes the shared mapping through unchanged, so its vendor request
carries no `tools`, `tool_choice` or `parallel_tool_calls` keys exactly
when the shared mapping was still empty — that is, when no earlier call
in the process supplied function schemas. -/
theorem kwargs_reflect_shared_state (jl : String → Option ArgsDict)
    (gf : String → Option (ArgsDict → String)) (so rs rc rd : Bool) (cap : ℕ)
    (streams : List (List Chunk)) (cache : CacheState)
    (kwargs : AdditionalKwargs) (caching : Bool) (model : String)
    (t p : Temp) (messages : List Message)
    (functions : Option (List FunctionSchema))
    (hfal : functionsTruthy (effectiveFunctions rs rc rd functions)
      = false) :
    (getCompletionAux jl gf so rs rc rd cap streams cache kwargs caching
      model t p messages functions).kwargs = kwargs
    ∧ (∀ vc ∈ (getCompletionAux jl gf so rs rc rd cap streams cache kwargs
        caching model t p messages functions).vendorCalls,
        vc.kwargs = kwargs)
    ∧ (kwargs = {} →
        ∀ vc ∈ (getCompletionAux jl gf so rs rc rd cap streams cache kwargs
          caching model t p messages functions).vendorCalls,
          vc.kwargs.tool_choice = none ∧ vc.kwargs.tools = none
          ∧ vc.kwargs.parallel_tool_calls = none) := by
  obtain ⟨h1, h2⟩ := run_kwargs_of_falsy jl gf so rs rc rd cap streams cache
    kwargs caching model t p messages functions hfal
  refine ⟨h1, h2, ?_⟩
  intro hk vc hvc
  rw [h2 vc hvc, hk]
  exact ⟨rfl, rfl, rfl⟩

/-- Witness for C9 amended: a functions-absent call on the pristine
shared mapping. -/
theorem kwargs_reflect_shared_state_witness :
    functionsTruthy (effectiveFunctions false false false none) = false
    ∧ ((getCompletionAux (fun _ => none) (fun _ => none) false false false
        false 1 [] ⟨[]⟩ {} false "m" 0 0 [] none).kwargs = {}
       ∧ (∀ vc ∈ (getCompletionAux (fun _ => none) (fun _ => none) false
           false false false 1 [] ⟨[]⟩ {} false "m" 0 0 []
           none).vendorCalls, vc.kwargs = {})
       ∧ (({} : AdditionalKwargs) = {} →
           ∀ vc ∈ (getCompletionAux (fun _ => none) (fun _ => none) false
             false false false 1 [] ⟨[]⟩ {} false "m" 0 0 []
             none).vendorCalls,
             vc.kwargs.tool_choice = none ∧ vc.kwargs.tools = none
             ∧ vc.kwargs.parallel_tool_calls = none)) :=
  ⟨rfl, kwargs_reflect_shared_state (fun _ => none) (fun _ => none) false
    false false false 1 [] ⟨[]⟩ {} false "m" 0 0 [] none rfl⟩

/-- C10: the Anthropic adapter's unstated precondition, on the keyword
call shape: with no system message among the messages it fails
(`None` subscripting) whatever the model; with a system message but any
model other than `claude-3-5-sonnet-20241022` it fails (assertion);
with exactly one system message and that model the failure branches are
unreachable and it dispatches. -/
theorem anthropic_adapter_precondition (model : String)
    (messages : List Message) :
    (messages.filter (fun m => m.role = "system") = [] →
      adaptParametersToAnthropic model messages = .error .noSystemMessage)
    ∧ (model ≠ "claude-3-5-sonnet-20241022" →
        ∃ e, adaptParametersToAnthropic model messages = .error e)
    ∧ ((messages.filter (fun m => m.role = "system")).length = 1 →
        model = "claude-3-5-sonnet-20241022" →
        ∃ v, adaptParametersToAnthropic model messages = .ok v) := by
  refine ⟨?_, ?_, ?_⟩
  · intro h0
    unfold adaptParametersToAnthropic
    rw [splitSystem_eq]
    dsimp only
    rw [h0]
    rfl
  · intro hm
    unfold adaptParametersToAnthropic
    rw [splitSystem_eq]
    dsimp only
    cases (messages.filter (fun m => m.role = "system")).getLast? with
    | none => exact ⟨.noSystemMessage, rfl⟩
    | some m0 =>
      exact ⟨.wrongModel, by dsimp only; rw [if_neg hm]⟩
  · intro h1 hm
    obtain ⟨m0, hm0⟩ := List.length_eq_one.mp h1
    refine ⟨((messages.filter (fun m => m.role ≠ "system")).map wrapMessage,
      m0.content), ?_⟩
    unfold adaptParametersToAnthropic
    rw [splitSystem_eq]
    dsimp only
    rw [hm0]
    rw [show ([m0] : List Message).getLast? = some m0 from rfl]
    dsimp only
    rw [if_pos hm]

/-- Witness for C10: all three precondition branches at concrete
inputs. -/
theorem anthropic_adapter_precondition_witness :
    (adaptParametersToAnthropic "claude-3-5-sonnet-20241022"
        [⟨"user", "hi", none, none⟩] = .error .noSystemMessage)
    ∧ (∃ e, adaptParametersToAnthropic "gpt-4o"
        [⟨"system", "S", none, none⟩] = .error e)
    ∧ (∃ v, adaptParametersToAnthropic "claude-3-5-sonnet-20241022"
        [⟨"system", "S", none, none⟩, ⟨"user", "hi", none, none⟩]
        = .ok v) :=
  ⟨(anthropic_adapter_precondition "claude-3-5-sonnet-20241022"
      [⟨"user", "hi", none, none⟩]).1 (by decide),
   (anthropic_adapter_precondition "gpt-4o"
      [⟨"system", "S", none, none⟩]).2.1 (by decide),
   (anthropic_adapter_precondition "claude-3-5-sonnet-20241022"
      [⟨"system", "S", none, none⟩, ⟨"user", "hi", none, none⟩]).2.2
      (by decide) rfl⟩

end SGpt
